import Mathlib

/-!
Verification of the simple-logr structured-logging library.

The Go sources are shallowly embedded below:
* `GoValue` models the dynamic `interface{}` values carried as log key-value
  data (`json.Marshal`-able or not).
* `GoError` models Go `error` values together with the optional stack-trace
  capability used by `DefaultErrorEncoder` (`StackTrace() errors.StackTrace`);
  the already-rendered trace text is carried as an `Option String`.
* `Entry`, the severity / name / error encoders, the JSON sink and the
  development (text) sink are translated function by function from
  `logger.go`, `defaults.go`, `json.go` and `development.go`.
* Output destinations (`io.Writer`) are modelled by `GoWriter`: a list of the
  strings written so far plus a failure flag; each `Write` call either appends
  the whole string or fails (both sinks issue exactly one `Write` per entry).
* The Go slice semantics behind `Logger.WithName` / `Logger.WithValues`
  (backing arrays, capacities, `append`'s in-place writes) are modelled
  explicitly by `Heap`/`GoSlice`/`goAppend`.
-/

/-- A dynamic Go value (`interface{}`) as carried in `Entry.KVs`.
`chanInt` stands for a value (a `chan int`) that `json.Marshal` rejects. -/
inductive GoValue where
  | str (s : String)
  | int (n : Int)
  | bool (b : Bool)
  | null
  | chanInt
deriving DecidableEq, Repr

/-- Whether a `GoValue` is a Go `string` (the `k.(string)` type assertion). -/
def GoValue.isStr : GoValue → Bool
  | .str _ => true
  | _ => false

/-- A Go `error` value. `stackTrace` is `some t` when the error exposes the
`StackTrace() errors.StackTrace` capability of github.com/pkg/errors, with
`t` the text that `fmt.Sprintf("%+v", ...)` renders for that trace. -/
structure GoError where
  msg : String
  stackTrace : Option String
deriving DecidableEq, Repr

/-- `EncodedError` from defaults.go: information extracted from an error. -/
structure EncodedError where
  Message : String
  StackTrace : String
deriving DecidableEq, Repr

/-- Lower-case hex digit. -/
def hexDigit (n : Nat) : Char :=
  if n < 10 then Char.ofNat ('0'.toNat + n) else Char.ofNat ('a'.toNat + n - 10)

/-- Two lower-case hex digits for a byte. -/
def hexByte (n : Nat) : String :=
  String.singleton (hexDigit (n / 16 % 16)) ++ String.singleton (hexDigit (n % 16))

/-- encoding/json string escaping for one character (HTML escaping on, as it
is for `json.NewEncoder`): `"` `\` and control characters are escaped, as are
`<` `>` `&` and U+2028/U+2029; other characters pass through. -/
def jsonEscapeChar (c : Char) : String :=
  if c = '"' then "\\\""
  else if c = '\\' then "\\\\"
  else if c = '\n' then "\\n"
  else if c = '\r' then "\\r"
  else if c = '\t' then "\\t"
  else if c = '<' then "\\u003c"
  else if c = '>' then "\\u003e"
  else if c = '&' then "\\u0026"
  else if c.toNat < 0x20 then "\\u00" ++ hexByte c.toNat
  else if c = ' ' then "\\u2028"
  else if c = ' ' then "\\u2029"
  else String.singleton c

/-- encoding/json rendering of a Go string literal. -/
def jsonQuote (s : String) : String :=
  "\"" ++ String.join (s.data.map jsonEscapeChar) ++ "\""

/-- strconv.Quote escaping for one character, as used by the `%q` verb
(ASCII-faithful; printable non-ASCII also passes through unescaped). -/
def goQuoteChar (c : Char) : String :=
  if c = '"' then "\\\""
  else if c = '\\' then "\\\\"
  else if c = '\n' then "\\n"
  else if c = '\r' then "\\r"
  else if c = '\t' then "\\t"
  else if c = '\x07' then "\\a"
  else if c = '\x08' then "\\b"
  else if c = '\x0b' then "\\v"
  else if c = '\x0c' then "\\f"
  else if c.toNat < 0x20 then "\\x" ++ hexByte c.toNat
  else String.singleton c

/-- `%q` (strconv.Quote) rendering of a Go string. -/
def goQuote (s : String) : String :=
  "\"" ++ String.join (s.data.map goQuoteChar) ++ "\""

/-- Go type name of a `GoValue`, as printed by the `%T` verb. -/
def GoValue.typeName : GoValue → String
  | .str _ => "string"
  | .int _ => "int"
  | .bool _ => "bool"
  | .null => "<nil>"
  | .chanInt => "chan int"

/-- `%v` display of a `GoValue`. A channel's `%v` is its runtime address,
which we model as an opaque placeholder (no claim inspects it). -/
def GoValue.display : GoValue → String
  | .str s => s
  | .int n => toString n
  | .bool b => if b then "true" else "false"
  | .null => "<nil>"
  | .chanInt => "0x0"

/-- `json.Marshal` on a `GoValue`: channels are rejected, everything else
serializes to its compact JSON form. -/
def jsonMarshal : GoValue → Except String String
  | .str s => .ok (jsonQuote s)
  | .int n => .ok (toString n)
  | .bool b => .ok (if b then "true" else "false")
  | .null => .ok "null"
  | .chanInt => .error "json: unsupported type: chan int"

/-- Whether an `Except` result is the error case. -/
def isErr : Except String α → Bool
  | .error _ => true
  | .ok _ => false

/-- `Entry` from logger.go: the normalized log record handed to a `LogSink`.
Timestamps are opaque (`Nat`); the sinks only pass them to the configured
`TimestampEncoder`. -/
structure Entry where
  Level : Int
  Names : List String
  Timestamp : Nat
  Message : String
  KVs : List GoValue
  Error : Option GoError
deriving DecidableEq, Repr

/-- `SeverityThreshold` from defaults.go. -/
structure SeverityThreshold where
  Level : Int
  Severity : String
deriving DecidableEq, Repr

/-- The threshold loop inside `DefaultSeverityEncoder`:
`for _, threshold := range thresholds { if level >= threshold.Level { return threshold.Severity } }`
followed by `return defaultSeverity`. -/
def severityScan (defaultSeverity : String) (level : Int) : List SeverityThreshold → String
  | [] => defaultSeverity
  | t :: rest => if t.Level ≤ level then t.Severity else severityScan defaultSeverity level rest

/-- `DefaultSeverityEncoder` from defaults.go. -/
def DefaultSeverityEncoder (defaultSeverity errSeverity : String)
    (thresholds : List SeverityThreshold) : Int → Option GoError → String :=
  fun level err =>
    match err with
    | some _ => errSeverity
    | none => severityScan defaultSeverity level thresholds

/-- `DefaultNameEncoder` from defaults.go (`strings.Join(names, separator)`). -/
def DefaultNameEncoder (separator : String) : List String → String :=
  fun names => String.intercalate separator names

/-- `DefaultErrorEncoder` from defaults.go: `Message` is `err.Error()`, and
`StackTrace` is the rendered trace when the error exposes one, else empty. -/
def DefaultErrorEncoder (err : GoError) : EncodedError :=
  { Message := err.msg
    StackTrace := match err.stackTrace with
      | some t => t
      | none => "" }

/-- Default configuration constants from defaults.go. -/
def DefaultMessageKey : String := "msg"
def DefaultNameKey : String := "name"
def DefaultTimestampKey : String := "ts"
def DefaultNameSeparator : String := "."
def DefaultTraceVerbosity : Int := 2
def DefaultDebugVerbosity : Int := 1
def DefaultSeverityKey : String := "severity"
def DefaultErrorKey : String := "error"
def DefaultStackTraceKey : String := "stacktrace"
def DefaultSeverity : String := "INFO"
def DefaultErrorSeverity : String := "ERROR"
def DefaultEntrySuffix : String := "\n"
def DefaultSpaceSeparator : String := " "
def DefaultSeverityThresholds : List SeverityThreshold :=
  [{ Level := DefaultTraceVerbosity, Severity := "TRACE" },
   { Level := DefaultDebugVerbosity, Severity := "DEBUG" }]

/-- An `io.Writer` destination: the complete strings written so far, plus a
flag making every `Write` call fail (the underlying writer erroring). -/
structure GoWriter where
  written : List String
  fail : Bool
deriving DecidableEq, Repr

/-- One `Write` call: appends the whole string, or fails writing nothing. -/
def GoWriter.write (w : GoWriter) (s : String) : Except String Unit × GoWriter :=
  if w.fail then (.error "write error", w)
  else (.ok (), { written := w.written ++ [s], fail := w.fail })

/-! ### The JSON object model

`JSONLogSink.Log` builds a `map[string]interface{}`. We model the map as an
association list whose keys stay duplicate-free: `mapInsert` overwrites the
binding in place when the key exists and appends it otherwise. Go maps are
unordered and encoding/json serializes them with keys in sorted order, so the
list position carries no observable meaning. -/

/-- Map assignment `obj[k] = v`. -/
def mapInsert (k : String) (v : GoValue) : List (String × GoValue) → List (String × GoValue)
  | [] => [(k, v)]
  | (k', v') :: rest => if k' = k then (k', v) :: rest else (k', v') :: mapInsert k v rest

/-- Map lookup `obj[k]`. -/
def objLookup (k : String) : List (String × GoValue) → Option GoValue
  | [] => none
  | (k', v) :: rest => if k' = k then some v else objLookup k rest

/-- The keys of the object. -/
def objKeys (obj : List (String × GoValue)) : List String := obj.map (·.1)

/-- Lexicographic comparison of character lists: the key order in which
encoding/json serializes Go map entries (Go compares key strings byte-wise;
for UTF-8 the byte order and the code-point order agree). -/
def charListLt : List Char → List Char → Bool
  | [], [] => false
  | [], _ :: _ => true
  | _ :: _, [] => false
  | a :: as, b :: bs => if a < b then true else if b < a then false else charListLt as bs

/-- Go's string comparison `a < b`. -/
def strLt (a b : String) : Bool := charListLt a.data b.data

/-- Insert a pair into a key-sorted list (ordering used by encoding/json for
map keys). -/
def insertSorted (p : String × GoValue) : List (String × GoValue) → List (String × GoValue)
  | [] => [p]
  | q :: rest => if strLt p.1 q.1 then p :: q :: rest else q :: insertSorted p rest

/-- Sort object entries by key, as encoding/json does before serializing a map. -/
def sortByKey : List (String × GoValue) → List (String × GoValue)
  | [] => []
  | p :: rest => insertSorted p (sortByKey rest)

/-- Serialize the entries of the object one by one; the first value that
`json.Marshal` rejects aborts the whole encode. -/
def renderEntries : List (String × GoValue) → Except String (List String)
  | [] => .ok []
  | (k, v) :: rest =>
    match jsonMarshal v with
    | .error msg => .error msg
    | .ok vs =>
      match renderEntries rest with
      | .error msg => .error msg
      | .ok tail => .ok ((jsonQuote k ++ ":" ++ vs) :: tail)

/-- `json.NewEncoder(out).Encode(obj)` up to the write: marshal the map with
keys in sorted order and append the stream delimiter `\n`. -/
def jsonEncodeObj (obj : List (String × GoValue)) : Except String String :=
  match renderEntries (sortByKey obj) with
  | .error msg => .error msg
  | .ok parts => .ok ("\x7b" ++ String.intercalate "," parts ++ "\x7d\n")

/-! ### JSON sink -/

/-- `JSONLogSinkOptions` from json.go. The `Output` writer is passed to `Log`
separately; encoder function fields are modelled as already populated (the Go
struct allows them to be nil, in which case `AssertDefaults` fills them — a
nil-function dereference is not claim-relevant here). -/
structure JSONLogSinkOptions where
  SeverityKey : String
  SeverityEncoder : Int → Option GoError → String
  NameKey : String
  NameEncoder : List String → String
  MessageKey : String
  TimestampKey : String
  TimestampEncoder : Nat → String
  ErrorKey : String
  StackTraceKey : String
  ErrorEncoder : GoError → EncodedError

/-- `if j.options.TimestampKey != "" { obj[j.options.TimestampKey] = j.options.TimestampEncoder(e.Timestamp) }` -/
def jsonPutTimestamp (opts : JSONLogSinkOptions) (e : Entry)
    (obj : List (String × GoValue)) : List (String × GoValue) :=
  if opts.TimestampKey ≠ "" then
    mapInsert opts.TimestampKey (.str (opts.TimestampEncoder e.Timestamp)) obj
  else obj

/-- `if j.options.SeverityKey != "" { obj[j.options.SeverityKey] = j.options.SeverityEncoder(e.Level, e.Error) }` -/
def jsonPutSeverity (opts : JSONLogSinkOptions) (e : Entry)
    (obj : List (String × GoValue)) : List (String × GoValue) :=
  if opts.SeverityKey ≠ "" then
    mapInsert opts.SeverityKey (.str (opts.SeverityEncoder e.Level e.Error)) obj
  else obj

/-- `if len(e.Names) > 0 && j.options.NameKey != "" { obj[j.options.NameKey] = j.options.NameEncoder(e.Names) }` -/
def jsonPutName (opts : JSONLogSinkOptions) (e : Entry)
    (obj : List (String × GoValue)) : List (String × GoValue) :=
  if 0 < e.Names.length ∧ opts.NameKey ≠ "" then
    mapInsert opts.NameKey (.str (opts.NameEncoder e.Names)) obj
  else obj

/-- `if e.Message != "" && j.options.MessageKey != "" { obj[j.options.MessageKey] = e.Message }` -/
def jsonPutMessage (opts : JSONLogSinkOptions) (e : Entry)
    (obj : List (String × GoValue)) : List (String × GoValue) :=
  if e.Message ≠ "" ∧ opts.MessageKey ≠ "" then
    mapInsert opts.MessageKey (.str e.Message) obj
  else obj

/-- The `if e.Error != nil && (j.options.ErrorKey != "" || j.options.StackTraceKey != "")`
block of `JSONLogSink.Log`: encode the error once, then conditionally store
its message and its stack trace. -/
def jsonPutError (opts : JSONLogSinkOptions) (e : Entry)
    (obj : List (String × GoValue)) : List (String × GoValue) :=
  match e.Error with
  | none => obj
  | some err =>
    if opts.ErrorKey ≠ "" ∨ opts.StackTraceKey ≠ "" then
      let enc := opts.ErrorEncoder err
      let obj1 := if opts.ErrorKey ≠ "" ∧ enc.Message ≠ "" then
          mapInsert opts.ErrorKey (.str enc.Message) obj
        else obj
      if opts.StackTraceKey ≠ "" ∧ enc.StackTrace ≠ "" then
        mapInsert opts.StackTraceKey (.str enc.StackTrace) obj1
      else obj1
    else obj

/-- The fixed-field part of `JSONLogSink.Log`, in source order: timestamp,
severity, name, message, then error and stack trace. -/
def jsonFixedObj (opts : JSONLogSinkOptions) (e : Entry) : List (String × GoValue) :=
  jsonPutError opts e (jsonPutMessage opts e (jsonPutName opts e
    (jsonPutSeverity opts e (jsonPutTimestamp opts e []))))

/-- The key-value loop of `JSONLogSink.Log`:
`for i := 0; i < len(e.KVs); i += 2 { ... obj[kStr] = v }`.
Keys must be Go strings. A single trailing element makes the Go loop read
`e.KVs[i+1]` out of range and panic; that runtime panic is modelled as the
error case marked `panic:` (no claim exercises odd-length sequences at a
sink). -/
def jsonInsertKVs (obj : List (String × GoValue)) : List GoValue → Except String (List (String × GoValue))
  | [] => .ok obj
  | [_] => .error "panic: runtime error: index out of range"
  | k :: v :: rest =>
    match k with
    | .str kStr => jsonInsertKVs (mapInsert kStr v obj) rest
    | _ => .error ("logging keys must be strings, got " ++ k.typeName ++ ": " ++ k.display)

/-- The object-building part of `JSONLogSink.Log` (everything before
`json.NewEncoder(...).Encode(obj)`). -/
def jsonBuildObj (opts : JSONLogSinkOptions) (e : Entry) : Except String (List (String × GoValue)) :=
  jsonInsertKVs (jsonFixedObj opts e) e.KVs

/-- `JSONLogSink.Log` from json.go: build the object, encode it as one JSON
line and write it with a single `Write` call; any failure (non-string key,
value marshalling, underlying write) aborts with an error. Encode errors are
wrapped as `failed to encode log entry as JSON`. -/
def JSONLogSink.Log (opts : JSONLogSinkOptions) (e : Entry) (w : GoWriter) :
    Except String Unit × GoWriter :=
  match jsonBuildObj opts e with
  | .error msg => (.error msg, w)
  | .ok obj =>
    match jsonEncodeObj obj with
    | .error msg => (.error ("failed to encode log entry as JSON: " ++ msg), w)
    | .ok line =>
      match w.write line with
      | (.error msg, w') => (.error ("failed to encode log entry as JSON: " ++ msg), w')
      | (.ok _, w') => (.ok (), w')

/-- `JSONLogSinkOptions.AssertDefaults` from json.go, on the key-name fields:
every field still holding its zero value is replaced by the package default.
(The nil-function fields and the `Output` writer are filled the same way in
Go; they are modelled as always populated.) -/
def JSONLogSinkOptions.AssertDefaults (j : JSONLogSinkOptions) : JSONLogSinkOptions :=
  { j with
    SeverityKey := if j.SeverityKey = "" then DefaultSeverityKey else j.SeverityKey
    NameKey := if j.NameKey = "" then DefaultNameKey else j.NameKey
    MessageKey := if j.MessageKey = "" then DefaultMessageKey else j.MessageKey
    TimestampKey := if j.TimestampKey = "" then DefaultTimestampKey else j.TimestampKey
    ErrorKey := if j.ErrorKey = "" then DefaultErrorKey else j.ErrorKey
    StackTraceKey := if j.StackTraceKey = "" then DefaultStackTraceKey else j.StackTraceKey }

/-! ### Development (text) sink -/

/-- A fatih/color `Color` as observable on output bytes: the escape sequence
written before the payload and the reset sequence written after. A colour
with colouring disabled (or `ColourModeForceOff`) has both empty. -/
structure Colour where
  escBefore : String
  escAfter : String
deriving DecidableEq, Repr

/-- `colour.Fprint(f, s)`: the payload wrapped in the colour's escapes. -/
def applyColour (c : Colour) (s : String) : String := c.escBefore ++ s ++ c.escAfter

/-- `DevelopmentLogSinkOptions` from development.go (`Output` is passed to
`Log` separately, and `ColouredOutput` is already folded into the `Colour`
values, as `NewDevelopmentLogSink` does). -/
structure DevelopmentLogSinkOptions where
  SeverityColours : List (String × Colour)
  PrimaryColour : Colour
  SecondaryColour : Colour
  SeverityEncoder : Int → Option GoError → String
  NameEncoder : List String → String
  TimestampEncoder : Nat → String
  ErrorKey : String
  ErrorEncoder : GoError → EncodedError
  EntrySuffix : String
  SpaceSeparator : String

/-- `d.options.SeverityColours[severity]`, falling back to the primary colour
when the map has no entry (`if severityColour == nil`). -/
def severityColourOf (opts : DevelopmentLogSinkOptions) (severity : String) : Colour :=
  match opts.SeverityColours.lookup severity with
  | some c => c
  | none => opts.PrimaryColour

/-- The key-value loop of `DevelopmentLogSink.Log`: for each pair, the key is
printed in the secondary colour as `<sep><key>=` and the `json.Marshal` of the
value in the primary colour. Non-string keys and marshal failures abort.
As in `jsonInsertKVs`, a trailing lone element is Go's out-of-range panic. -/
def devRenderKVs (opts : DevelopmentLogSinkOptions) : List GoValue → Except String String
  | [] => .ok ""
  | [_] => .error "panic: runtime error: index out of range"
  | k :: v :: rest =>
    match k with
    | .str kStr =>
      match jsonMarshal v with
      | .error msg => .error msg
      | .ok b =>
        match devRenderKVs opts rest with
        | .error msg => .error msg
        | .ok tail =>
          .ok (applyColour opts.SecondaryColour (opts.SpaceSeparator ++ kStr ++ "=") ++
               applyColour opts.PrimaryColour b ++ tail)
    | _ => .error ("logging keys must be strings, got " ++ k.typeName ++ ": " ++ k.display)

/-- `DevelopmentLogSink.Log` from development.go: render the whole line into
an in-memory buffer — timestamp, severity, optional joined names, message,
optional `<ErrorKey>=<%q message>`, the key-value pairs, and (directly, with
no separator of its own) any stack trace — then write buffer plus
`EntrySuffix` to the output in a single `Write`. -/
def DevelopmentLogSink.Log (opts : DevelopmentLogSinkOptions) (e : Entry) (w : GoWriter) :
    Except String Unit × GoWriter :=
  let severity := opts.SeverityEncoder e.Level e.Error
  let severityColour := severityColourOf opts severity
  let base :=
    applyColour opts.SecondaryColour (opts.TimestampEncoder e.Timestamp) ++
    applyColour severityColour (opts.SpaceSeparator ++ severity) ++
    (if 0 < e.Names.length then
      applyColour opts.PrimaryColour (opts.SpaceSeparator ++ opts.NameEncoder e.Names)
     else "") ++
    applyColour opts.PrimaryColour (opts.SpaceSeparator ++ e.Message)
  let errPart :=
    match e.Error with
    | some err =>
      applyColour severityColour
        (opts.SpaceSeparator ++ opts.ErrorKey ++ "=" ++ goQuote (opts.ErrorEncoder err).Message)
    | none => ""
  let stackText :=
    match e.Error with
    | some err => (opts.ErrorEncoder err).StackTrace
    | none => ""
  match devRenderKVs opts e.KVs with
  | .error msg => (.error msg, w)
  | .ok kvPart =>
    let stackPart := if stackText ≠ "" then applyColour opts.PrimaryColour stackText else ""
    match w.write (base ++ errPart ++ kvPart ++ stackPart ++ opts.EntrySuffix) with
    | (.error msg, w') => (.error msg, w')
    | (.ok _, w') => (.ok (), w')

/-! ### Logger: record construction (logger.go)

`Logger.log` is pure given the logger's current accrued state: it builds an
`Entry` and hands it to the sink.  The function below returns the `Entry`
passed to `Sink.Log` (the sink-failure handling routes to the error handler
and is not claim-relevant). -/

/-- The usage error built by `errors.New("odd number of arguments passed as
key-value pairs for logging")`. `pkg/errors.New` attaches a runtime stack
trace; its text depends on the call site, so it is not modelled (no claim
inspects it). -/
def oddKvsError : GoError :=
  { msg := "odd number of arguments passed as key-value pairs for logging", stackTrace := none }

/-- `Logger.log` from logger.go, given the receiver's accrued `names` and
`values` and the captured timestamp `now`: if the accrued plus call-site
key-value count is odd, dispatch the degraded entry carrying only names,
timestamp and `oddKvsError` (all other fields are Go zero values) and return;
otherwise dispatch the intended entry whose KVs are the accrued values
followed by the call-site pairs. -/
def Logger.log (names : List String) (values : List GoValue) (now : Nat)
    (level : Int) (err : Option GoError) (msg : String)
    (keysAndValues : List GoValue) : Entry :=
  if (values.length + keysAndValues.length) % 2 ≠ 0 then
    { Level := 0, Names := names, Timestamp := now, Message := "", KVs := [],
      Error := some oddKvsError }
  else
    { Level := level, Names := names, Timestamp := now, Message := msg,
      KVs := values ++ keysAndValues, Error := err }

/-- `Logger.Info`: `l.log(level, nil, msg, keysAndValues...)`. -/
def Logger.Info (names : List String) (values : List GoValue) (now : Nat)
    (level : Int) (msg : String) (keysAndValues : List GoValue) : Entry :=
  Logger.log names values now level none msg keysAndValues

/-- `Logger.Error`: `l.log(0, err, msg, keysAndValues...)`. -/
def Logger.Error (names : List String) (values : List GoValue) (now : Nat)
    (err : GoError) (msg : String) (keysAndValues : List GoValue) : Entry :=
  Logger.log names values now 0 (some err) msg keysAndValues

/-! ### Go slices with backing arrays (for `WithName` / `WithValues`)

`Logger.WithValues` and `Logger.WithName` are
`l.values = append(l.values, keysAndValues...); return &l` on a value
receiver.  Go's `append` writes in place into the existing backing array when
the capacity allows and allocates a fresh array otherwise, so the derived
loggers' slices can alias their parent's array.  To settle claims about
derivation independence this aliasing must be modelled: a `GoSlice` is a
(array id, length) pair into an explicit heap of capacity-tagged arrays. -/

/-- A backing array: its capacity and the initialized cells (always a
contiguous block starting at index 0 in this library's usage). -/
structure GoArray (α : Type) where
  cap : Nat
  data : List α
deriving DecidableEq, Repr

/-- The heap of allocated backing arrays. -/
abbrev GoHeap (α : Type) : Type := List (GoArray α)

/-- A Go slice header (all slices here start at offset 0 of their array). -/
structure GoSlice where
  arrId : Nat
  len : Nat
deriving DecidableEq, Repr

/-- The nil slice: array 0 is the presized empty sentinel with capacity 0. -/
def GoSlice.nil : GoSlice := { arrId := 0, len := 0 }

def GoHeap.empty (α : Type) : GoHeap α := [{ cap := 0, data := [] }]

def GoHeap.arr (h : GoHeap α) (i : Nat) : GoArray α := h.getD i { cap := 0, data := [] }

/-- The elements a slice denotes. -/
def GoSlice.read (s : GoSlice) (h : GoHeap α) : List α := (h.arr s.arrId).data.take s.len

/-- Store `x` at cell `pos` of array `i` (callers only write within capacity,
at or below the initialized frontier). -/
def heapWrite (h : GoHeap α) (i pos : Nat) (x : α) : GoHeap α :=
  h.set i (let a := h.arr i
           { cap := a.cap
             data := if pos < a.data.length then a.data.set pos x else a.data ++ [x] })

/-- Store consecutive elements starting at cell `pos` of array `i`. -/
def heapWriteSeq (h : GoHeap α) (i pos : Nat) : List α → GoHeap α
  | [] => h
  | x :: xs => heapWriteSeq (heapWrite h i pos x) i (pos + 1) xs

/-- Go's `append(s, items...)`: within capacity it writes into the existing
backing array in place (aliasing anything else that views it); otherwise it
allocates a fresh array whose capacity is the doubled old capacity or the
needed length, whichever is larger — Go's `growslice` policy for small
slices; the runtime's size-class rounding is exact at every capacity arising
in the claims below (16-byte elements, capacities up to 5). -/
def goAppend (h : GoHeap α) (s : GoSlice) (items : List α) : GoHeap α × GoSlice :=
  let a := h.arr s.arrId
  let needed := s.len + items.length
  if needed ≤ a.cap then
    (heapWriteSeq h s.arrId s.len items, { arrId := s.arrId, len := needed })
  else
    (h ++ [{ cap := max needed (2 * a.cap), data := s.read h ++ items }],
     { arrId := h.length, len := needed })

/-- The accrued state of a `Logger` value: its `names` and `values` slice
headers (the sink, verbosity and error handler are claim-irrelevant here). -/
structure HLogger where
  names : GoSlice
  values : GoSlice
deriving DecidableEq, Repr

/-- The two heaps backing all logger slices. -/
structure LogHeap where
  strHeap : GoHeap String
  valHeap : GoHeap GoValue

def LogHeap.init : LogHeap := { strHeap := GoHeap.empty String, valHeap := GoHeap.empty GoValue }

/-- The logger `New` returns: nil `names` and `values`. -/
def HLogger.new : HLogger := { names := GoSlice.nil, values := GoSlice.nil }

/-- `Logger.WithName`: `l.names = append(l.names, name); return &l`. -/
def Logger.WithName (st : LogHeap) (l : HLogger) (name : String) : LogHeap × HLogger :=
  let (h, s) := goAppend st.strHeap l.names [name]
  ({ st with strHeap := h }, { l with names := s })

/-- `Logger.WithValues`: `l.values = append(l.values, keysAndValues...); return &l`. -/
def Logger.WithValues (st : LogHeap) (l : HLogger) (keysAndValues : List GoValue) :
    LogHeap × HLogger :=
  let (h, s) := goAppend st.valHeap l.values keysAndValues
  ({ st with valHeap := h }, { l with values := s })

/-! ### Specification-side helpers

These helpers state the claims; they are not translations of Go code. -/

/-- Flatten explicit pairs into the alternating `KVs` layout
`[key1, value1, key2, value2, ...]`. -/
def pairsToKVs : List (GoValue × GoValue) → List GoValue
  | [] => []
  | p :: rest => p.1 :: p.2 :: pairsToKVs rest

/-- View string-keyed pairs as `GoValue` pairs. -/
def strPairs (ps : List (String × GoValue)) : List (GoValue × GoValue) :=
  ps.map (fun p => (.str p.1, p.2))

/-- The value of the last pair carrying key `k` (the last write). -/
def lastVal (k : String) : List (String × GoValue) → Option GoValue
  | [] => none
  | p :: rest =>
    match lastVal k rest with
    | some v => some v
    | none => if p.1 = k then some p.2 else none

/-- Index of the first occurrence of `p` as a contiguous sublist. -/
def findSub [DecidableEq α] (p : List α) : List α → Option Nat
  | [] => if p = [] then some 0 else none
  | c :: rest =>
    if p.isPrefixOf (c :: rest) then some 0
    else (findSub p rest).map (· + 1)

/-- Index of the first occurrence of string `p` inside `s`. -/
def findSubStr (p s : String) : Option Nat := findSub p.data s.data

/-- Number of positions where `p` occurs as a contiguous sublist. -/
def countSub [DecidableEq α] (p : List α) : List α → Nat
  | [] => if p = [] then 1 else 0
  | c :: rest => (if p.isPrefixOf (c :: rest) then 1 else 0) + countSub p rest

/-- Number of occurrences of string `p` inside `s`. -/
def countSubStr (p s : String) : Nat := countSub p.data s.data

/-- The severity policy as the spec words it: error present means the error
severity; otherwise the first threshold (in list order) whose level bound is
at most the verbosity level wins; otherwise the default severity. -/
def severityPolicySpec (defaultSeverity errSeverity : String)
    (thresholds : List SeverityThreshold) (level : Int) (err : Option GoError) : String :=
  match err with
  | some _ => errSeverity
  | none =>
    match thresholds.find? (fun t => t.Level ≤ level) with
    | some t => t.Severity
    | none => defaultSeverity

deriving instance DecidableEq for Except

/-! ### Claim C1 — argument-parity validation in `Logger.log` -/

/-- C1: for every logging call (`Info` or `Error`), when the accrued kvs
length plus the call-site kvs length is odd, the dispatched entry is the
degraded record carrying only the accrued names, the capture timestamp and
the descriptive usage error — level `0` (the zero value), empty message, no
kvs — and when the sum is even the intended record is dispatched instead. -/
theorem C1_parity_dispatch (names : List String) (values : List GoValue) (now : Nat)
    (level : Int) (err : GoError) (msg : String) (kvs : List GoValue) :
    ((values.length + kvs.length) % 2 = 1 →
      Logger.Info names values now level msg kvs =
        { Level := 0, Names := names, Timestamp := now, Message := "", KVs := [],
          Error := some oddKvsError } ∧
      Logger.Error names values now err msg kvs =
        { Level := 0, Names := names, Timestamp := now, Message := "", KVs := [],
          Error := some oddKvsError }) ∧
    ((values.length + kvs.length) % 2 = 0 →
      Logger.Info names values now level msg kvs =
        { Level := level, Names := names, Timestamp := now, Message := msg,
          KVs := values ++ kvs, Error := none } ∧
      Logger.Error names values now err msg kvs =
        { Level := 0, Names := names, Timestamp := now, Message := msg,
          KVs := values ++ kvs, Error := some err }) := by
  constructor <;> intro h <;>
    simp [Logger.Info, Logger.Error, Logger.log, h]

/-- Witness for C1 at concrete inputs: one accrued value and no call-site
pairs (odd sum, degraded record), then two accrued values (even sum,
intended record). -/
theorem C1_parity_dispatch_witness :
    Logger.Info ["n"] [.str "k"] 5 3 "m" [] =
      { Level := 0, Names := ["n"], Timestamp := 5, Message := "", KVs := [],
        Error := some oddKvsError } ∧
    Logger.Info ["n"] [.str "k", .int 7] 5 3 "m" [] =
      { Level := 3, Names := ["n"], Timestamp := 5, Message := "m",
        KVs := [.str "k", .int 7], Error := none } :=
  ⟨((C1_parity_dispatch ["n"] [.str "k"] 5 3 ⟨"b", none⟩ "m" []).1 (by decide)).1,
   ((C1_parity_dispatch ["n"] [.str "k", .int 7] 5 3 ⟨"b", none⟩ "m" []).2 (by decide)).1⟩

/-! ### Claim C2 — derivation independence of `WithName` / `WithValues`

`Logger.WithName` appends with Go `append` on a value-receiver copy.  After
three chained `WithName` calls the `names` slice has length 3 in a backing
array of capacity 4 (`append` doubles 2 to 4), so the next two *sibling*
derivations from that same parent both write cell 3 of the shared array:
the second sibling's name overwrites the first sibling's. -/

/-- `New(...).WithName("a").WithName("b").WithName("c")`: the parent logger
whose `names` backing array has spare capacity (length 3, capacity 4). -/
def c2Parent : LogHeap × HLogger :=
  let r1 := Logger.WithName LogHeap.init HLogger.new "a"
  let r2 := Logger.WithName r1.1 r1.2 "b"
  Logger.WithName r2.1 r2.2 "c"

/-- First sibling derivation: `parent.WithName("d")`. -/
def c2SiblingD : LogHeap × HLogger := Logger.WithName c2Parent.1 c2Parent.2 "d"

/-- Second sibling derivation from the *same* parent: `parent.WithName("e")`. -/
def c2SiblingE : LogHeap × HLogger := Logger.WithName c2SiblingD.1 c2Parent.2 "e"

/-- C2 (code bug): sibling derivations of the same parent are not
independent.  After `parent.WithName("d")` the first sibling's accrued names
read `["a","b","c","d"]`, but the moment `parent.WithName("e")` runs, its
in-place `append` into the shared backing array changes the first sibling's
accrued names to `["a","b","c","e"]` — contradicting the claim that two
sibling derivations never affect each other's accrued names.  (The parent
itself still reads `["a","b","c"]`.) -/
theorem C2_sibling_aliasing_bug :
    c2SiblingD.2.names.read c2SiblingD.1.strHeap = ["a", "b", "c", "d"] ∧
    c2SiblingE.2.names.read c2SiblingE.1.strHeap = ["a", "b", "c", "e"] ∧
    c2SiblingD.2.names.read c2SiblingE.1.strHeap = ["a", "b", "c", "e"] ∧
    ¬ c2SiblingD.2.names.read c2SiblingE.1.strHeap = ["a", "b", "c", "d"] ∧
    c2Parent.2.names.read c2SiblingE.1.strHeap = ["a", "b", "c"] := by decide

/-! ### Claim C3 — the severity encoder's policy -/

/-- C3: `DefaultSeverityEncoder` implements exactly the stated policy: a
non-nil error forces the error severity regardless of level; otherwise the
first threshold in list order whose level bound is at most the verbosity
level wins (first match, even for unsorted lists); otherwise the default
severity applies. -/
theorem C3_severity_policy (ds es : String) (ths : List SeverityThreshold)
    (level : Int) (err : Option GoError) :
    DefaultSeverityEncoder ds es ths level err = severityPolicySpec ds es ths level err := by
  cases err with
  | some e => rfl
  | none =>
    simp only [DefaultSeverityEncoder, severityPolicySpec]
    induction ths with
    | nil => rfl
    | cons t rest ih =>
      by_cases h : t.Level ≤ level
      · simp [severityScan, List.find?_cons, h]
      · simp [severityScan, List.find?_cons, h, ih]

/-! ### Lemmas about the JSON object model -/

/-- First-some choice on options (used to state last-write-wins lookups). -/
def optOr (a b : Option α) : Option α :=
  match a with
  | some v => some v
  | none => b

theorem objLookup_mapInsert (k k' : String) (v : GoValue) (obj : List (String × GoValue)) :
    objLookup k (mapInsert k' v obj) = if k' = k then some v else objLookup k obj := by
  induction obj with
  | nil => simp [mapInsert, objLookup]
  | cons p rest ih =>
    obtain ⟨p1, p2⟩ := p
    by_cases h : p1 = k'
    · subst h
      by_cases h2 : p1 = k <;> simp [mapInsert, objLookup, h2]
    · by_cases h2 : p1 = k
      · have hkk : ¬ k' = k := fun hkk => h (h2.trans hkk.symm)
        have hkk2 : ¬ k = k' := fun hh => hkk hh.symm
        simp [mapInsert, objLookup, h, h2, hkk, hkk2]
      · simp [mapInsert, objLookup, h, h2, ih]

theorem objLookup_isSome_iff_mem (k : String) (obj : List (String × GoValue)) :
    (objLookup k obj).isSome ↔ k ∈ objKeys obj := by
  induction obj with
  | nil => simp [objLookup, objKeys]
  | cons p rest ih =>
    obtain ⟨p1, p2⟩ := p
    by_cases h : p1 = k
    · subst h
      simp [objLookup, objKeys]
    · have hne : ¬ k = p1 := fun hh => h hh.symm
      simp only [objLookup, if_neg h, objKeys, List.map_cons, List.mem_cons] at ih ⊢
      rw [ih]
      simp [hne]

theorem mem_objKeys_mapInsert (k k' : String) (v : GoValue) (obj : List (String × GoValue)) :
    k ∈ objKeys (mapInsert k' v obj) ↔ k = k' ∨ k ∈ objKeys obj := by
  rw [← objLookup_isSome_iff_mem, ← objLookup_isSome_iff_mem k obj, objLookup_mapInsert]
  by_cases h : k' = k
  · subst h
    simp
  · have h2 : ¬ k = k' := fun hh => h hh.symm
    simp [h, h2]

theorem nodup_objKeys_mapInsert (k : String) (v : GoValue) (obj : List (String × GoValue))
    (h : (objKeys obj).Nodup) : (objKeys (mapInsert k v obj)).Nodup := by
  induction obj with
  | nil => simp [mapInsert, objKeys]
  | cons p rest ih =>
    obtain ⟨p1, p2⟩ := p
    simp only [objKeys, List.map_cons, List.nodup_cons] at h
    by_cases hk : p1 = k
    · subst hk
      have he : mapInsert p1 v ((p1, p2) :: rest) = (p1, v) :: rest := by
        simp [mapInsert]
      rw [he]
      simp only [objKeys, List.map_cons, List.nodup_cons]
      exact ⟨h.1, h.2⟩
    · have he : mapInsert k v ((p1, p2) :: rest) = (p1, p2) :: mapInsert k v rest := by
        simp [mapInsert, hk]
      rw [he]
      simp only [objKeys, List.map_cons, List.nodup_cons]
      refine ⟨fun hm => ?_, ih h.2⟩
      rcases (mem_objKeys_mapInsert p1 k v rest).mp hm with hm2 | hm2
      · exact hk hm2
      · exact h.1 hm2

theorem objLookup_mem (k : String) (v : GoValue) (obj : List (String × GoValue))
    (h : objLookup k obj = some v) : (k, v) ∈ obj := by
  induction obj with
  | nil => simp [objLookup] at h
  | cons p rest ih =>
    obtain ⟨p1, p2⟩ := p
    by_cases hk : p1 = k
    · rw [objLookup, if_pos hk] at h
      injection h with h2
      subst hk
      subst h2
      exact List.mem_cons_self _ _
    · rw [objLookup, if_neg hk] at h
      exact List.mem_cons_of_mem _ (ih h)

/-- The kv loop over well-formed (string-keyed, even) input is the fold of
map assignments. -/
theorem jsonInsertKVs_strPairs (ps : List (String × GoValue)) (obj : List (String × GoValue)) :
    jsonInsertKVs obj (pairsToKVs (strPairs ps)) =
      .ok (ps.foldl (fun o p => mapInsert p.1 p.2 o) obj) := by
  induction ps generalizing obj with
  | nil => rfl
  | cons p rest ih =>
    simp only [strPairs, List.map_cons, pairsToKVs, jsonInsertKVs, List.foldl_cons]
    exact ih _

theorem objLookup_foldl (k : String) (ps : List (String × GoValue))
    (obj : List (String × GoValue)) :
    objLookup k (ps.foldl (fun o p => mapInsert p.1 p.2 o) obj) =
      optOr (lastVal k ps) (objLookup k obj) := by
  induction ps generalizing obj with
  | nil => rfl
  | cons p rest ih =>
    rw [List.foldl_cons, ih, objLookup_mapInsert]
    cases hl : lastVal k rest with
    | some v => simp [lastVal, hl, optOr]
    | none => by_cases hk : p.1 = k <;> simp [lastVal, hl, optOr, hk]

theorem mem_objKeys_foldl (k : String) (ps : List (String × GoValue))
    (obj : List (String × GoValue)) :
    k ∈ objKeys (ps.foldl (fun o p => mapInsert p.1 p.2 o) obj) ↔
      k ∈ ps.map (·.1) ∨ k ∈ objKeys obj := by
  induction ps generalizing obj with
  | nil => simp
  | cons p rest ih =>
    rw [List.foldl_cons, ih]
    simp only [List.map_cons, List.mem_cons, mem_objKeys_mapInsert]
    tauto

theorem nodup_objKeys_foldl (ps : List (String × GoValue)) (obj : List (String × GoValue))
    (h : (objKeys obj).Nodup) :
    (objKeys (ps.foldl (fun o p => mapInsert p.1 p.2 o) obj)).Nodup := by
  induction ps generalizing obj with
  | nil => exact h
  | cons p rest ih => exact ih _ (nodup_objKeys_mapInsert _ _ _ h)

theorem lastVal_of_not_mem (k : String) (ps : List (String × GoValue))
    (h : k ∉ ps.map (·.1)) : lastVal k ps = none := by
  induction ps with
  | nil => rfl
  | cons p rest ih =>
    simp only [List.map_cons, List.mem_cons] at h
    push_neg at h
    rw [lastVal, ih h.2]
    simp only [if_neg (fun hh : p.1 = k => h.1 hh.symm)]

theorem lastVal_of_nodup (k : String) (v : GoValue) (ps : List (String × GoValue))
    (hnd : (ps.map (·.1)).Nodup) (hm : (k, v) ∈ ps) : lastVal k ps = some v := by
  induction ps with
  | nil => simp at hm
  | cons p rest ih =>
    simp only [List.map_cons, List.nodup_cons] at hnd
    rcases List.mem_cons.mp hm with hm1 | hm1
    · subst hm1
      rw [lastVal, lastVal_of_not_mem _ _ hnd.1]
      simp
    · rw [lastVal, ih hnd.2 hm1]

/-! ### Which keys the fixed fields contribute -/

theorem mem_objKeys_jsonPutTimestamp (opts : JSONLogSinkOptions) (e : Entry) (k : String)
    (obj : List (String × GoValue)) :
    k ∈ objKeys (jsonPutTimestamp opts e obj) ↔
      (k = opts.TimestampKey ∧ opts.TimestampKey ≠ "") ∨ k ∈ objKeys obj := by
  unfold jsonPutTimestamp
  split_ifs with h
  · rw [mem_objKeys_mapInsert]
    tauto
  · simp only [ne_eq, not_not] at h
    simp [h]

theorem mem_objKeys_jsonPutSeverity (opts : JSONLogSinkOptions) (e : Entry) (k : String)
    (obj : List (String × GoValue)) :
    k ∈ objKeys (jsonPutSeverity opts e obj) ↔
      (k = opts.SeverityKey ∧ opts.SeverityKey ≠ "") ∨ k ∈ objKeys obj := by
  unfold jsonPutSeverity
  split_ifs with h
  · rw [mem_objKeys_mapInsert]
    tauto
  · simp only [ne_eq, not_not] at h
    simp [h]

theorem mem_objKeys_jsonPutName (opts : JSONLogSinkOptions) (e : Entry) (k : String)
    (obj : List (String × GoValue)) :
    k ∈ objKeys (jsonPutName opts e obj) ↔
      (k = opts.NameKey ∧ 0 < e.Names.length ∧ opts.NameKey ≠ "") ∨ k ∈ objKeys obj := by
  unfold jsonPutName
  split_ifs with h
  · rw [mem_objKeys_mapInsert]
    tauto
  · rw [not_and_or] at h
    rcases h with h | h
    · simp only [not_lt, Nat.le_zero] at h
      simp [h]
    · simp only [ne_eq, not_not] at h
      simp [h]

theorem mem_objKeys_jsonPutMessage (opts : JSONLogSinkOptions) (e : Entry) (k : String)
    (obj : List (String × GoValue)) :
    k ∈ objKeys (jsonPutMessage opts e obj) ↔
      (k = opts.MessageKey ∧ e.Message ≠ "" ∧ opts.MessageKey ≠ "") ∨ k ∈ objKeys obj := by
  unfold jsonPutMessage
  split_ifs with h
  · rw [mem_objKeys_mapInsert]
    tauto
  · rw [not_and_or] at h
    rcases h with h | h <;> simp only [ne_eq, not_not] at h <;> simp [h]

theorem mem_objKeys_jsonPutError (opts : JSONLogSinkOptions) (e : Entry) (k : String)
    (obj : List (String × GoValue)) :
    k ∈ objKeys (jsonPutError opts e obj) ↔
      (∃ err, e.Error = some err ∧
        ((k = opts.ErrorKey ∧ opts.ErrorKey ≠ "" ∧ (opts.ErrorEncoder err).Message ≠ "") ∨
         (k = opts.StackTraceKey ∧ opts.StackTraceKey ≠ "" ∧
           (opts.ErrorEncoder err).StackTrace ≠ ""))) ∨ k ∈ objKeys obj := by
  cases he : e.Error with
  | none => simp [jsonPutError, he]
  | some err =>
    simp only [jsonPutError, he, Option.some.injEq, exists_eq_left']
    split_ifs with hg h1 h2 h3
    · rw [mem_objKeys_mapInsert, mem_objKeys_mapInsert]
      tauto
    · rw [mem_objKeys_mapInsert]
      tauto
    · rw [mem_objKeys_mapInsert]
      tauto
    · tauto
    · rw [not_or] at hg
      simp only [ne_eq, not_not] at hg
      simp [hg.1, hg.2]

/-- Exactly which keys appear among the fixed fields of the JSON object:
each of the six fields contributes its configured key name precisely when
that key name is non-empty and the field's own emission condition holds. -/
theorem mem_objKeys_jsonFixedObj (opts : JSONLogSinkOptions) (e : Entry) (k : String) :
    k ∈ objKeys (jsonFixedObj opts e) ↔
      (∃ err, e.Error = some err ∧
        ((k = opts.ErrorKey ∧ opts.ErrorKey ≠ "" ∧ (opts.ErrorEncoder err).Message ≠ "") ∨
         (k = opts.StackTraceKey ∧ opts.StackTraceKey ≠ "" ∧
           (opts.ErrorEncoder err).StackTrace ≠ ""))) ∨
      (k = opts.MessageKey ∧ e.Message ≠ "" ∧ opts.MessageKey ≠ "") ∨
      (k = opts.NameKey ∧ 0 < e.Names.length ∧ opts.NameKey ≠ "") ∨
      (k = opts.SeverityKey ∧ opts.SeverityKey ≠ "") ∨
      (k = opts.TimestampKey ∧ opts.TimestampKey ≠ "") := by
  unfold jsonFixedObj
  rw [mem_objKeys_jsonPutError, mem_objKeys_jsonPutMessage, mem_objKeys_jsonPutName,
    mem_objKeys_jsonPutSeverity, mem_objKeys_jsonPutTimestamp]
  simp only [objKeys, List.map_nil, List.not_mem_nil, or_false]

theorem nodup_objKeys_jsonPutTimestamp (opts : JSONLogSinkOptions) (e : Entry)
    (obj : List (String × GoValue)) (h : (objKeys obj).Nodup) :
    (objKeys (jsonPutTimestamp opts e obj)).Nodup := by
  unfold jsonPutTimestamp
  split_ifs
  · exact nodup_objKeys_mapInsert _ _ _ h
  · exact h

theorem nodup_objKeys_jsonPutSeverity (opts : JSONLogSinkOptions) (e : Entry)
    (obj : List (String × GoValue)) (h : (objKeys obj).Nodup) :
    (objKeys (jsonPutSeverity opts e obj)).Nodup := by
  unfold jsonPutSeverity
  split_ifs
  · exact nodup_objKeys_mapInsert _ _ _ h
  · exact h

theorem nodup_objKeys_jsonPutName (opts : JSONLogSinkOptions) (e : Entry)
    (obj : List (String × GoValue)) (h : (objKeys obj).Nodup) :
    (objKeys (jsonPutName opts e obj)).Nodup := by
  unfold jsonPutName
  split_ifs
  · exact nodup_objKeys_mapInsert _ _ _ h
  · exact h

theorem nodup_objKeys_jsonPutMessage (opts : JSONLogSinkOptions) (e : Entry)
    (obj : List (String × GoValue)) (h : (objKeys obj).Nodup) :
    (objKeys (jsonPutMessage opts e obj)).Nodup := by
  unfold jsonPutMessage
  split_ifs
  · exact nodup_objKeys_mapInsert _ _ _ h
  · exact h

theorem nodup_objKeys_jsonPutError (opts : JSONLogSinkOptions) (e : Entry)
    (obj : List (String × GoValue)) (h : (objKeys obj).Nodup) :
    (objKeys (jsonPutError opts e obj)).Nodup := by
  cases he : e.Error with
  | none => simpa [jsonPutError, he] using h
  | some err =>
    simp only [jsonPutError, he]
    split_ifs
    · exact nodup_objKeys_mapInsert _ _ _ (nodup_objKeys_mapInsert _ _ _ h)
    · exact nodup_objKeys_mapInsert _ _ _ h
    · exact nodup_objKeys_mapInsert _ _ _ h
    · exact h
    · exact h

/-- The fixed-field part of the object has duplicate-free keys. -/
theorem nodup_objKeys_jsonFixedObj (opts : JSONLogSinkOptions) (e : Entry) :
    (objKeys (jsonFixedObj opts e)).Nodup := by
  unfold jsonFixedObj
  apply nodup_objKeys_jsonPutError
  apply nodup_objKeys_jsonPutMessage
  apply nodup_objKeys_jsonPutName
  apply nodup_objKeys_jsonPutSeverity
  apply nodup_objKeys_jsonPutTimestamp
  simp [objKeys]

/-- `jsonBuildObj` on well-formed key-value input: the caller pairs are
folded over the fixed fields as map assignments. -/
theorem jsonBuildObj_strPairs (opts : JSONLogSinkOptions) (e : Entry)
    (ps : List (String × GoValue)) (hkv : e.KVs = pairsToKVs (strPairs ps)) :
    jsonBuildObj opts e =
      .ok (ps.foldl (fun o p => mapInsert p.1 p.2 o) (jsonFixedObj opts e)) := by
  unfold jsonBuildObj
  rw [hkv, jsonInsertKVs_strPairs]

/-! ### Error-path lemmas -/

theorem isErr_eq_true_iff (x : Except String α) : isErr x = true ↔ ∃ m, x = .error m := by
  cases x <;> simp [isErr]

theorem mem_insertSorted (q p : String × GoValue) (l : List (String × GoValue)) :
    q ∈ insertSorted p l ↔ q = p ∨ q ∈ l := by
  induction l with
  | nil => simp [insertSorted]
  | cons r rest ih =>
    unfold insertSorted
    split_ifs
    · simp
    · simp only [List.mem_cons, ih]
      tauto

theorem mem_sortByKey (q : String × GoValue) (obj : List (String × GoValue)) :
    q ∈ sortByKey obj ↔ q ∈ obj := by
  induction obj with
  | nil => simp [sortByKey]
  | cons p rest ih =>
    unfold sortByKey
    rw [mem_insertSorted]
    simp [ih]

theorem renderEntries_err (obj : List (String × GoValue))
    (h : ∃ q ∈ obj, isErr (jsonMarshal q.2) = true) : isErr (renderEntries obj) = true := by
  induction obj with
  | nil => simp at h
  | cons p rest ih =>
    obtain ⟨q, hq, hqe⟩ := h
    unfold renderEntries
    cases hm : jsonMarshal p.2 with
    | error m => simp [isErr]
    | ok vs =>
      rcases List.mem_cons.mp hq with hq1 | hq1
      · subst hq1
        rw [hm] at hqe
        simp [isErr] at hqe
      · have := ih ⟨q, hq1, hqe⟩
        obtain ⟨m, hm2⟩ := (isErr_eq_true_iff _).mp this
        rw [hm2]
        simp [isErr]

theorem jsonEncodeObj_err (obj : List (String × GoValue))
    (h : ∃ q ∈ obj, isErr (jsonMarshal q.2) = true) : isErr (jsonEncodeObj obj) = true := by
  have h2 : ∃ q ∈ sortByKey obj, isErr (jsonMarshal q.2) = true := by
    obtain ⟨q, hq, hqe⟩ := h
    exact ⟨q, (mem_sortByKey q obj).mpr hq, hqe⟩
  obtain ⟨m, hm⟩ := (isErr_eq_true_iff _).mp (renderEntries_err _ h2)
  unfold jsonEncodeObj
  rw [hm]
  simp [isErr]

theorem jsonInsertKVs_err_nonstr (qs : List (GoValue × GoValue)) (obj : List (String × GoValue))
    (h : qs.any (fun q => !q.1.isStr) = true) :
    isErr (jsonInsertKVs obj (pairsToKVs qs)) = true := by
  induction qs generalizing obj with
  | nil => simp at h
  | cons q rest ih =>
    simp only [List.any_cons, Bool.or_eq_true] at h
    unfold pairsToKVs jsonInsertKVs
    cases hk : q.1 with
    | str s =>
      rcases h with h | h
      · rw [hk] at h
        simp [GoValue.isStr] at h
      · exact ih _ h
    | int n => simp [isErr]
    | bool b => simp [isErr]
    | null => simp [isErr]
    | chanInt => simp [isErr]

theorem jsonInsertKVs_err_marshal (ps : List (String × GoValue)) (obj : List (String × GoValue))
    (hnd : (ps.map (·.1)).Nodup) (h : ps.any (fun p => isErr (jsonMarshal p.2)) = true) :
    ∃ o, jsonInsertKVs obj (pairsToKVs (strPairs ps)) = .ok o ∧
      ∃ q ∈ o, isErr (jsonMarshal q.2) = true := by
  rw [jsonInsertKVs_strPairs]
  refine ⟨_, rfl, ?_⟩
  simp only [List.any_eq_true] at h
  obtain ⟨p, hp, hpe⟩ := h
  refine ⟨(p.1, p.2), ?_, hpe⟩
  apply objLookup_mem
  rw [objLookup_foldl, lastVal_of_nodup p.1 p.2 ps hnd]
  · rfl
  · exact hp

theorem devRenderKVs_err_nonstr (opts : DevelopmentLogSinkOptions)
    (qs : List (GoValue × GoValue)) (h : qs.any (fun q => !q.1.isStr) = true) :
    isErr (devRenderKVs opts (pairsToKVs qs)) = true := by
  induction qs with
  | nil => simp at h
  | cons q rest ih =>
    simp only [List.any_cons, Bool.or_eq_true] at h
    unfold pairsToKVs devRenderKVs
    cases hk : q.1 with
    | str s =>
      rcases h with h | h
      · rw [hk] at h
        simp [GoValue.isStr] at h
      · cases hm : jsonMarshal q.2 with
        | error m => simp [isErr]
        | ok vs =>
          obtain ⟨m, hm2⟩ := (isErr_eq_true_iff _).mp (ih h)
          rw [hm2]
          simp [isErr]
    | int n => simp [isErr]
    | bool b => simp [isErr]
    | null => simp [isErr]
    | chanInt => simp [isErr]

theorem devRenderKVs_err_marshal (opts : DevelopmentLogSinkOptions)
    (ps : List (String × GoValue)) (h : ps.any (fun p => isErr (jsonMarshal p.2)) = true) :
    isErr (devRenderKVs opts (pairsToKVs (strPairs ps))) = true := by
  induction ps with
  | nil => simp at h
  | cons p rest ih =>
    simp only [List.any_cons, Bool.or_eq_true] at h
    unfold strPairs pairsToKVs devRenderKVs
    simp only [List.map_cons]
    cases hm : jsonMarshal p.2 with
    | error m => simp [pairsToKVs, devRenderKVs, isErr]
    | ok vs =>
      rcases h with h | h
      · rw [hm] at h
        simp [isErr] at h
      · obtain ⟨m, hm2⟩ := (isErr_eq_true_iff _).mp (ih h)
        simp only [strPairs] at hm2
        rw [hm2]
        simp [isErr]

/-! ### Rendering lemmas for the development sink -/

/-- The string `json.Marshal` produces on success (unused on failure). -/
def marshalStr (v : GoValue) : String :=
  match jsonMarshal v with
  | .ok s => s
  | .error _ => ""

/-- The kv section of a text line as the spec describes it: for each pair in
original order, `<sep><key>=` in the secondary colour followed by the
marshalled value in the primary colour. -/
def devSegments (opts : DevelopmentLogSinkOptions) : List (String × GoValue) → String
  | [] => ""
  | p :: rest =>
    applyColour opts.SecondaryColour (opts.SpaceSeparator ++ p.1 ++ "=") ++
    applyColour opts.PrimaryColour (marshalStr p.2) ++ devSegments opts rest

theorem devRenderKVs_strPairs (opts : DevelopmentLogSinkOptions)
    (ps : List (String × GoValue)) (hok : ∀ p ∈ ps, isErr (jsonMarshal p.2) = false) :
    devRenderKVs opts (pairsToKVs (strPairs ps)) = .ok (devSegments opts ps) := by
  induction ps with
  | nil => rfl
  | cons p rest ih =>
    have hph := hok p (List.mem_cons_self _ _)
    cases hm : jsonMarshal p.2 with
    | error m =>
      rw [hm] at hph
      simp [isErr] at hph
    | ok vs =>
      have ihh := ih (fun q hq => hok q (List.mem_cons_of_mem _ hq))
      simp only [strPairs, List.map_cons, pairsToKVs, devRenderKVs]
      rw [hm]
      simp only [strPairs] at ihh
      rw [ihh]
      simp [devSegments, marshalStr, hm]

/-- One text line in the layout the code produces (C7, amended): timestamp,
separator+severity, optional separator+joined names, separator+message,
optional separator+`<ErrorKey>=<%q message>`, the kv section, then — with no
separator of its own — any non-empty stack trace, and finally the entry
suffix. -/
def devSpecLine (opts : DevelopmentLogSinkOptions) (e : Entry) (kvLine : String) : String :=
  let severity := opts.SeverityEncoder e.Level e.Error
  let sevColour := severityColourOf opts severity
  applyColour opts.SecondaryColour (opts.TimestampEncoder e.Timestamp) ++
  applyColour sevColour (opts.SpaceSeparator ++ severity) ++
  (if 0 < e.Names.length then
    applyColour opts.PrimaryColour (opts.SpaceSeparator ++ opts.NameEncoder e.Names)
   else "") ++
  applyColour opts.PrimaryColour (opts.SpaceSeparator ++ e.Message) ++
  (match e.Error with
   | some err =>
     applyColour sevColour
       (opts.SpaceSeparator ++ opts.ErrorKey ++ "=" ++ goQuote (opts.ErrorEncoder err).Message)
   | none => "") ++
  kvLine ++
  (match e.Error with
   | some err =>
     if (opts.ErrorEncoder err).StackTrace ≠ "" then
       applyColour opts.PrimaryColour (opts.ErrorEncoder err).StackTrace
     else ""
   | none => "") ++
  opts.EntrySuffix

theorem dev_Log_writes (opts : DevelopmentLogSinkOptions) (e : Entry) (w : GoWriter)
    (kvLine : String) (hkv : devRenderKVs opts e.KVs = .ok kvLine) (hw : w.fail = false) :
    DevelopmentLogSink.Log opts e w =
      (.ok (), { written := w.written ++ [devSpecLine opts e kvLine], fail := false }) := by
  unfold DevelopmentLogSink.Log
  rw [hkv]
  unfold GoWriter.write
  rw [hw]
  cases he : e.Error with
  | none => simp [devSpecLine, he]
  | some err => simp [devSpecLine, he]

/-! ### Claim C7 — text sink line layout -/

/-- Concrete development-sink options: identity colours (force-off), default
separators and keys, fixed timestamp text. -/
def c7Opts : DevelopmentLogSinkOptions :=
  { SeverityColours := [], PrimaryColour := ⟨"", ""⟩, SecondaryColour := ⟨"", ""⟩,
    SeverityEncoder :=
      DefaultSeverityEncoder DefaultSeverity DefaultErrorSeverity DefaultSeverityThresholds,
    NameEncoder := DefaultNameEncoder DefaultNameSeparator,
    TimestampEncoder := fun _ => "TS",
    ErrorKey := DefaultErrorKey, ErrorEncoder := DefaultErrorEncoder,
    EntrySuffix := DefaultEntrySuffix, SpaceSeparator := DefaultSpaceSeparator }

/-- A record whose error carries a stack trace. -/
def c7Entry : Entry :=
  { Level := 0, Names := [], Timestamp := 0, Message := "oops", KVs := [],
    Error := some { msg := "boom", stackTrace := some "STACK" } }

/-- C7 (counterexample): the text sink does NOT put a separator before the
stack trace.  At a concrete record with error `boom` and stack trace `STACK`
the emitted line is `TS ERROR oops error="boom"STACK\n`, not the
`TS ERROR oops error="boom" STACK\n` the claimed layout
(`... [<sep> stack_trace]`) requires. -/
theorem C7_stacktrace_separator_counterexample :
    (DevelopmentLogSink.Log c7Opts c7Entry { written := [], fail := false }).2.written =
      ["TS ERROR oops error=\"boom\"STACK\n"] ∧
    "TS ERROR oops error=\"boom\"STACK\n" ≠ "TS ERROR oops error=\"boom\" STACK\n" := by
  decide

/-- C7 (amended): for every record whose kv section renders successfully and
every non-failing writer, the text sink writes exactly one line laid out as
`devSpecLine` describes: timestamp, separator+severity, optional
separator+joined names, separator+message, optional
separator+`<ErrorKey>="<message>"`, the kv pairs, then any non-empty stack
trace appended directly with NO separator of its own, terminated by the
configured entry suffix. -/
theorem C7_text_layout_amended (opts : DevelopmentLogSinkOptions) (e : Entry) (w : GoWriter)
    (kvLine : String) (hkv : devRenderKVs opts e.KVs = .ok kvLine) (hw : w.fail = false) :
    DevelopmentLogSink.Log opts e w =
      (.ok (), { written := w.written ++ [devSpecLine opts e kvLine], fail := false }) :=
  dev_Log_writes opts e w kvLine hkv hw

/-- Witness for the amended C7 at the concrete record above. -/
theorem C7_text_layout_amended_witness :
    DevelopmentLogSink.Log c7Opts c7Entry { written := [], fail := false } =
      (.ok (), { written := [devSpecLine c7Opts c7Entry ""], fail := false }) := by
  have h := C7_text_layout_amended c7Opts c7Entry { written := [], fail := false } ""
    (by decide) (by decide)
  simpa using h

theorem lastVal_isSome_of_mem (k : String) (ps : List (String × GoValue))
    (h : k ∈ ps.map (·.1)) : (lastVal k ps).isSome := by
  induction ps with
  | nil => simp at h
  | cons p rest ih =>
    rw [lastVal]
    cases hl : lastVal k rest with
    | some v => simp
    | none =>
      simp only [List.map_cons, List.mem_cons] at h
      rcases h with h | h
      · simp [h.symm]
      · have := ih h
        rw [hl] at this
        simp at this

/-! ### Claim C4 — kv pairs in the encoded output of both sinks -/

/-- JSON-sink options whose fixed fields are all switched off (every key name
empty), isolating the caller kv pairs in the output object. -/
def c4Opts : JSONLogSinkOptions :=
  { SeverityKey := "", SeverityEncoder := fun _ _ => "INFO", NameKey := "",
    NameEncoder := DefaultNameEncoder DefaultNameSeparator, MessageKey := "",
    TimestampKey := "", TimestampEncoder := fun _ => "TS", ErrorKey := "",
    StackTraceKey := "", ErrorEncoder := DefaultErrorEncoder }

/-- A record whose kv keys arrive in the order `b`, then `a`. -/
def c4Entry : Entry :=
  { Level := 0, Names := [], Timestamp := 0, Message := "",
    KVs := [.str "b", .int 1, .str "a", .int 2], Error := none }

/-- C4 (counterexample): the JSON sink serializes the object with its keys in
sorted order, not in the original kv order.  With caller pairs
`b=1, a=2` the emitted line is `{"a":2,"b":1}` followed by a newline: each
key appears exactly once with its value, but `a` (at character index 1)
precedes `b` (at character index 7), while the original order has `b` first. -/
theorem C4_json_order_counterexample :
    (JSONLogSink.Log c4Opts c4Entry { written := [], fail := false }).2.written =
      ["\x7b\"a\":2,\"b\":1\x7d\n"] ∧
    countSubStr "\"b\":1" "\x7b\"a\":2,\"b\":1\x7d\n" = 1 ∧
    countSubStr "\"a\":2" "\x7b\"a\":2,\"b\":1\x7d\n" = 1 ∧
    findSubStr "\"b\":1" "\x7b\"a\":2,\"b\":1\x7d\n" = some 7 ∧
    findSubStr "\"a\":2" "\x7b\"a\":2,\"b\":1\x7d\n" = some 1 ∧
    ¬ (7 : Nat) < 1 := by
  decide

/-- C4 (amended): for every record with an even-length kv sequence of
duplicate-free string keys whose values all marshal, (text) the development
sink renders the pairs as one contiguous section of its single written line,
one `<sep><key>=<value>` segment per pair in original order (`devSegments`),
and (JSON) the sink's object binds every caller key exactly once to its
corresponding value — but the JSON serialization orders keys lexicographically
(see the counterexample), not in original kv order. -/
theorem C4_kv_rendering_amended (dopts : DevelopmentLogSinkOptions)
    (jopts : JSONLogSinkOptions) (e : Entry) (ps : List (String × GoValue)) (w : GoWriter)
    (hkv : e.KVs = pairsToKVs (strPairs ps))
    (hnd : (ps.map (·.1)).Nodup)
    (hok : ∀ p ∈ ps, isErr (jsonMarshal p.2) = false)
    (hw : w.fail = false) :
    (DevelopmentLogSink.Log dopts e w =
      (.ok (), { written := w.written ++ [devSpecLine dopts e (devSegments dopts ps)],
                 fail := false })) ∧
    ((∀ p ∈ ps, p.1 ∉ objKeys (jsonFixedObj jopts e)) →
      ∃ obj, jsonBuildObj jopts e = .ok obj ∧ (objKeys obj).Nodup ∧
        ∀ p ∈ ps, objLookup p.1 obj = some p.2) := by
  constructor
  · have hr : devRenderKVs dopts e.KVs = .ok (devSegments dopts ps) := by
      rw [hkv]
      exact devRenderKVs_strPairs dopts ps hok
    exact dev_Log_writes dopts e w _ hr hw
  · intro _hdisj
    refine ⟨_, jsonBuildObj_strPairs jopts e ps hkv, ?_, ?_⟩
    · exact nodup_objKeys_foldl ps _ (nodup_objKeys_jsonFixedObj jopts e)
    · intro p hp
      rw [objLookup_foldl, lastVal_of_nodup p.1 p.2 ps hnd hp]
      rfl

/-- Witness for the amended C4 at the record with pairs `b=1, a=2`. -/
theorem C4_kv_rendering_amended_witness :
    (DevelopmentLogSink.Log c7Opts c4Entry { written := [], fail := false } =
      (.ok (), { written := ["TS INFO " ++
          devSegments c7Opts [("b", .int 1), ("a", .int 2)] ++ "\n"], fail := false })) ∧
    (∃ obj, jsonBuildObj c4Opts c4Entry = .ok obj ∧ (objKeys obj).Nodup ∧
      ∀ p ∈ [(("b" : String), GoValue.int 1), (("a" : String), GoValue.int 2)],
        objLookup p.1 obj = some p.2) := by
  have h := C4_kv_rendering_amended c7Opts c4Opts c4Entry
    [("b", .int 1), ("a", .int 2)] { written := [], fail := false }
    (by decide) (by decide) (by decide) (by decide)
  refine ⟨?_, h.2 (by decide)⟩
  have h1 := h.1
  rw [h1]
  have : devSpecLine c7Opts c4Entry (devSegments c7Opts [("b", .int 1), ("a", .int 2)]) =
      "TS INFO " ++ devSegments c7Opts [("b", .int 1), ("a", .int 2)] ++ "\n" := by decide
  rw [this]
  rfl

/-! ### Claim C5 — merged namespace and last-write-wins in the JSON sink -/

/-- C5: with all six fixed fields configured (non-empty key names) and
emitted (non-empty names, message, error message and stack trace), the JSON
object's keys are exactly the six configured fixed keys plus the caller kv
keys, and for every caller key the bound value is the caller's last value for
that key — so a caller key equal to a fixed key overwrites the fixed field
(last-write-wins), and later duplicates overwrite earlier ones. -/
theorem C5_json_merge_lastwins (opts : JSONLogSinkOptions) (e : Entry)
    (ps : List (String × GoValue)) (err : GoError)
    (hkv : e.KVs = pairsToKVs (strPairs ps))
    (hns : 0 < e.Names.length) (hmsg : e.Message ≠ "")
    (herr : e.Error = some err)
    (hencm : (opts.ErrorEncoder err).Message ≠ "")
    (hencs : (opts.ErrorEncoder err).StackTrace ≠ "")
    (hts : opts.TimestampKey ≠ "") (hsev : opts.SeverityKey ≠ "")
    (hnk : opts.NameKey ≠ "") (hmk : opts.MessageKey ≠ "")
    (hek : opts.ErrorKey ≠ "") (hstk : opts.StackTraceKey ≠ "") :
    ∃ obj, jsonBuildObj opts e = .ok obj ∧
      (∀ k, k ∈ objKeys obj ↔
        (k ∈ ps.map (·.1) ∨
          k ∈ [opts.TimestampKey, opts.SeverityKey, opts.NameKey, opts.MessageKey,
               opts.ErrorKey, opts.StackTraceKey])) ∧
      (∀ k, k ∈ ps.map (·.1) → objLookup k obj = lastVal k ps) := by
  refine ⟨_, jsonBuildObj_strPairs opts e ps hkv, fun k => ?_, fun k hk => ?_⟩
  · rw [mem_objKeys_foldl, mem_objKeys_jsonFixedObj]
    simp only [herr, Option.some.injEq, exists_eq_left', hns, hmsg, hencm, hencs,
      hts, hsev, hnk, hmk, hek, hstk, and_true, true_and,
      List.mem_cons, List.not_mem_nil, or_false]
    tauto
  · rw [objLookup_foldl]
    cases hl : lastVal k ps with
    | some v => rfl
    | none =>
      have := lastVal_isSome_of_mem k ps hk
      rw [hl] at this
      simp at this

/-- Concrete options for the C5 witness: default key names, encoders fixed. -/
def c5Opts : JSONLogSinkOptions :=
  { SeverityKey := DefaultSeverityKey,
    SeverityEncoder :=
      DefaultSeverityEncoder DefaultSeverity DefaultErrorSeverity DefaultSeverityThresholds,
    NameKey := DefaultNameKey, NameEncoder := DefaultNameEncoder DefaultNameSeparator,
    MessageKey := DefaultMessageKey, TimestampKey := DefaultTimestampKey,
    TimestampEncoder := fun _ => "TS", ErrorKey := DefaultErrorKey,
    StackTraceKey := DefaultStackTraceKey, ErrorEncoder := DefaultErrorEncoder }

/-- A record carrying a name, a message, a traced error, and caller pairs
`msg=override` (colliding with the message field) and `foo=flange`. -/
def c5Entry : Entry :=
  { Level := 0, Names := ["app"], Timestamp := 0, Message := "oops",
    KVs := [.str "msg", .str "override", .str "foo", .str "flange"],
    Error := some { msg := "boom", stackTrace := some "STACK" } }

/-- Witness for C5: at the concrete record, the object's keys are exactly the
six fixed keys plus `msg` and `foo`, and the caller's `msg` value overwrote
the fixed message field. -/
theorem C5_json_merge_lastwins_witness :
    ∃ obj, jsonBuildObj c5Opts c5Entry = .ok obj ∧
      (∀ k, k ∈ objKeys obj ↔
        (k ∈ [("msg" : String), "foo"] ∨
          k ∈ [("ts" : String), "severity", "name", "msg", "error", "stacktrace"])) ∧
      (∀ k, k ∈ [("msg" : String), "foo"] →
        objLookup k obj =
          lastVal k [("msg", .str "override"), ("foo", .str "flange")]) := by
  have h := C5_json_merge_lastwins c5Opts c5Entry
    [("msg", .str "override"), ("foo", .str "flange")]
    { msg := "boom", stackTrace := some "STACK" }
    (by decide) (by decide) (by decide) (by decide) (by decide) (by decide)
    (by decide) (by decide) (by decide) (by decide) (by decide) (by decide)
  simpa using h

/-! ### Claim C10 — conditional omission of message / error / stack trace -/

/-- C10: in the JSON sink, (a) a record with an empty message produces no
message key even when a non-empty message key is configured; (b) when the
error encoder yields an empty message for a present error, the error key is
omitted; (c) when it yields an empty stack trace, the stack-trace key is
omitted.  (In each part the key in question must not also be supplied by the
caller kvs or be configured as one of the other fixed keys, which would
re-introduce it.) -/
theorem C10_json_conditional_omission (opts : JSONLogSinkOptions) (e : Entry)
    (ps : List (String × GoValue)) (obj : List (String × GoValue))
    (hkv : e.KVs = pairsToKVs (strPairs ps))
    (hb : jsonBuildObj opts e = .ok obj) :
    (e.Message = "" → opts.MessageKey ∉ ps.map (·.1) →
      opts.MessageKey ≠ opts.TimestampKey → opts.MessageKey ≠ opts.SeverityKey →
      opts.MessageKey ≠ opts.NameKey → opts.MessageKey ≠ opts.ErrorKey →
      opts.MessageKey ≠ opts.StackTraceKey →
      objLookup opts.MessageKey obj = none) ∧
    (∀ err, e.Error = some err → (opts.ErrorEncoder err).Message = "" →
      opts.ErrorKey ∉ ps.map (·.1) →
      opts.ErrorKey ≠ opts.TimestampKey → opts.ErrorKey ≠ opts.SeverityKey →
      opts.ErrorKey ≠ opts.NameKey → opts.ErrorKey ≠ opts.MessageKey →
      opts.ErrorKey ≠ opts.StackTraceKey →
      objLookup opts.ErrorKey obj = none) ∧
    (∀ err, e.Error = some err → (opts.ErrorEncoder err).StackTrace = "" →
      opts.StackTraceKey ∉ ps.map (·.1) →
      opts.StackTraceKey ≠ opts.TimestampKey → opts.StackTraceKey ≠ opts.SeverityKey →
      opts.StackTraceKey ≠ opts.NameKey → opts.StackTraceKey ≠ opts.MessageKey →
      opts.StackTraceKey ≠ opts.ErrorKey →
      objLookup opts.StackTraceKey obj = none) := by
  have hobj := jsonBuildObj_strPairs opts e ps hkv
  rw [hb] at hobj
  injection hobj with hobj
  subst hobj
  refine ⟨fun hm hnp h1 h2 h3 h4 h5 => ?_, fun err herr hem hnp h1 h2 h3 h4 h5 => ?_,
    fun err herr hest hnp h1 h2 h3 h4 h5 => ?_⟩
  · apply Option.not_isSome_iff_eq_none.mp
    rw [objLookup_isSome_iff_mem, mem_objKeys_foldl, mem_objKeys_jsonFixedObj]
    rintro (hmem | ⟨err', _, ⟨hq, _, _⟩ | ⟨hq, _, _⟩⟩ | ⟨_, hne, _⟩ |
      ⟨hq, _, _⟩ | ⟨hq, _⟩ | ⟨hq, _⟩)
    · exact hnp hmem
    · exact h4 hq
    · exact h5 hq
    · exact hne hm
    · exact h3 hq
    · exact h2 hq
    · exact h1 hq
  · apply Option.not_isSome_iff_eq_none.mp
    rw [objLookup_isSome_iff_mem, mem_objKeys_foldl, mem_objKeys_jsonFixedObj]
    rintro (hmem | ⟨err', heq, ⟨_, _, hne⟩ | ⟨hq, _, _⟩⟩ | ⟨hq, _, _⟩ |
      ⟨hq, _, _⟩ | ⟨hq, _⟩ | ⟨hq, _⟩)
    · exact hnp hmem
    · rw [herr] at heq
      injection heq with heq
      subst heq
      exact hne hem
    · exact h5 hq
    · exact h4 hq
    · exact h3 hq
    · exact h2 hq
    · exact h1 hq
  · apply Option.not_isSome_iff_eq_none.mp
    rw [objLookup_isSome_iff_mem, mem_objKeys_foldl, mem_objKeys_jsonFixedObj]
    rintro (hmem | ⟨err', heq, ⟨hq, _, _⟩ | ⟨_, _, hne⟩⟩ | ⟨hq, _, _⟩ |
      ⟨hq, _, _⟩ | ⟨hq, _⟩ | ⟨hq, _⟩)
    · exact hnp hmem
    · exact h5 hq
    · rw [herr] at heq
      injection heq with heq
      subst heq
      exact hne hest
    · exact h4 hq
    · exact h3 hq
    · exact h2 hq
    · exact h1 hq

/-- A record with an empty message and an error whose encoder yields an
empty stack trace (a plain, untraced error). -/
def c10Entry : Entry :=
  { Level := 0, Names := [], Timestamp := 0, Message := "",
    KVs := [.str "foo", .str "flange"],
    Error := some { msg := "boom", stackTrace := none } }

/-- Witness for C10 at a concrete record: no `msg` key despite the configured
`msg` key name, and no `stacktrace` key for the untraced error. -/
theorem C10_json_conditional_omission_witness :
    objLookup "msg" ((jsonBuildObj c5Opts c10Entry).toOption.getD []) = none ∧
    objLookup "stacktrace" ((jsonBuildObj c5Opts c10Entry).toOption.getD []) = none := by
  have h := C10_json_conditional_omission c5Opts c10Entry [("foo", .str "flange")]
    ((jsonBuildObj c5Opts c10Entry).toOption.getD []) (by decide) (by decide)
  exact ⟨h.1 (by decide) (by decide) (by decide) (by decide) (by decide) (by decide) (by decide),
    h.2.2 { msg := "boom", stackTrace := none } (by decide) (by decide) (by decide)
      (by decide) (by decide) (by decide) (by decide) (by decide)⟩

/-! ### Claim C8 — empty key names and option defaulting -/

/-- Options configuring the timestamp field away (empty key name), all other
keys at their defaults. -/
def c8Opts : JSONLogSinkOptions :=
  { SeverityKey := DefaultSeverityKey,
    SeverityEncoder :=
      DefaultSeverityEncoder DefaultSeverity DefaultErrorSeverity DefaultSeverityThresholds,
    NameKey := DefaultNameKey, NameEncoder := DefaultNameEncoder DefaultNameSeparator,
    MessageKey := DefaultMessageKey, TimestampKey := "",
    TimestampEncoder := fun _ => "TS", ErrorKey := DefaultErrorKey,
    StackTraceKey := DefaultStackTraceKey, ErrorEncoder := DefaultErrorEncoder }

/-- A plain info record. -/
def c8Entry : Entry :=
  { Level := 0, Names := [], Timestamp := 0, Message := "start", KVs := [], Error := none }

/-- C8 (counterexample): the omission does NOT survive option defaulting.
`AssertDefaults` cannot distinguish an intentionally empty key name from an
absent one: it replaces the empty timestamp key with the default `ts`, after
which the timestamp field is emitted again. -/
theorem C8_defaulting_counterexample :
    c8Opts.TimestampKey = "" ∧
    c8Opts.AssertDefaults.TimestampKey = "ts" ∧
    objLookup "ts" (jsonFixedObj c8Opts.AssertDefaults c8Entry) = some (.str "TS") ∧
    objLookup "ts" (jsonFixedObj c8Opts c8Entry) = none := by
  decide

/-- C8 (amended): each of the six fixed fields is independently omittable by
an empty key name *when the options are used as given* (`NewJSONLogSink`
applies no defaulting): the field is then absent — in particular nothing is
ever emitted under the empty-string key, and with an empty timestamp key the
object no longer depends on the record's timestamp at all.  However,
`AssertDefaults` replaces every empty key name with the package default, so
the omission does not survive option defaulting. -/
theorem C8_empty_key_omission_amended :
    (∀ (opts : JSONLogSinkOptions) (e : Entry) (ps : List (String × GoValue))
        (obj : List (String × GoValue)),
      e.KVs = pairsToKVs (strPairs ps) → ("" : String) ∉ ps.map (·.1) →
      jsonBuildObj opts e = .ok obj → objLookup "" obj = none) ∧
    (∀ (opts : JSONLogSinkOptions) (e : Entry) (t : Nat),
      opts.TimestampKey = "" →
      jsonFixedObj opts { e with Timestamp := t } = jsonFixedObj opts e) ∧
    (∀ j : JSONLogSinkOptions,
      (j.TimestampKey = "" → j.AssertDefaults.TimestampKey = DefaultTimestampKey) ∧
      (j.SeverityKey = "" → j.AssertDefaults.SeverityKey = DefaultSeverityKey) ∧
      (j.NameKey = "" → j.AssertDefaults.NameKey = DefaultNameKey) ∧
      (j.MessageKey = "" → j.AssertDefaults.MessageKey = DefaultMessageKey) ∧
      (j.ErrorKey = "" → j.AssertDefaults.ErrorKey = DefaultErrorKey) ∧
      (j.StackTraceKey = "" → j.AssertDefaults.StackTraceKey = DefaultStackTraceKey)) := by
  refine ⟨fun opts e ps obj hkv hnp hb => ?_, fun opts e t h => ?_, fun j => ?_⟩
  · have hobj := jsonBuildObj_strPairs opts e ps hkv
    rw [hb] at hobj
    injection hobj with hobj
    subst hobj
    apply Option.not_isSome_iff_eq_none.mp
    rw [objLookup_isSome_iff_mem, mem_objKeys_foldl, mem_objKeys_jsonFixedObj]
    rintro (hmem | ⟨err', _, ⟨hq, hne, _⟩ | ⟨hq, hne, _⟩⟩ | ⟨hq, _, hne⟩ |
      ⟨hq, _, hne⟩ | ⟨hq, hne⟩ | ⟨hq, hne⟩) <;>
      first
        | exact hnp hmem
        | exact hne hq.symm
  · simp [jsonFixedObj, jsonPutError, jsonPutMessage, jsonPutName, jsonPutSeverity,
      jsonPutTimestamp, h]
  · refine ⟨fun h => ?_, fun h => ?_, fun h => ?_, fun h => ?_, fun h => ?_, fun h => ?_⟩ <;>
      simp [JSONLogSinkOptions.AssertDefaults, h]

/-- Witness for the amended C8: no empty-string key in the object built for
the record with one caller pair; timestamp invariance under an empty
timestamp key; and `AssertDefaults` refilling the empty timestamp key. -/
theorem C8_empty_key_omission_amended_witness :
    objLookup "" ((jsonBuildObj c8Opts c10Entry).toOption.getD [("x", .null)]) = none ∧
    jsonFixedObj c8Opts { c8Entry with Timestamp := 42 } = jsonFixedObj c8Opts c8Entry ∧
    c8Opts.AssertDefaults.TimestampKey = DefaultTimestampKey := by
  refine ⟨C8_empty_key_omission_amended.1 c8Opts c10Entry [("foo", .str "flange")] _
      (by decide) (by decide) (by decide), ?_, ?_⟩
  · exact C8_empty_key_omission_amended.2.1 c8Opts c8Entry 42 (by decide)
  · exact (C8_empty_key_omission_amended.2.2 c8Opts).1 (by decide)

/-! ### Claim C6 — failure paths write nothing -/

/-- C6: for records with a non-string key (part 1), for records whose
surviving values fail to marshal (part 2), and for failing underlying
writers (part 3), both sinks return an error and leave the output exactly as
it was — the single `Write` of the fully built line never happens on a
failure path, so no partial line is produced.  (For the JSON sink, part 2
assumes duplicate-free caller keys, since a later duplicate overwrites — and
thereby discards — an earlier unmarshalable value.) -/
theorem C6_failure_paths (jopts : JSONLogSinkOptions) (dopts : DevelopmentLogSinkOptions)
    (e : Entry) (w : GoWriter) :
    (∀ qs : List (GoValue × GoValue), e.KVs = pairsToKVs qs →
      qs.any (fun q => !q.1.isStr) = true →
      (isErr (JSONLogSink.Log jopts e w).1 = true ∧ (JSONLogSink.Log jopts e w).2 = w) ∧
      (isErr (DevelopmentLogSink.Log dopts e w).1 = true ∧
        (DevelopmentLogSink.Log dopts e w).2 = w)) ∧
    (∀ ps : List (String × GoValue), e.KVs = pairsToKVs (strPairs ps) →
      (ps.map (·.1)).Nodup → ps.any (fun p => isErr (jsonMarshal p.2)) = true →
      (isErr (JSONLogSink.Log jopts e w).1 = true ∧ (JSONLogSink.Log jopts e w).2 = w) ∧
      (isErr (DevelopmentLogSink.Log dopts e w).1 = true ∧
        (DevelopmentLogSink.Log dopts e w).2 = w)) ∧
    (w.fail = true →
      (isErr (JSONLogSink.Log jopts e w).1 = true ∧ (JSONLogSink.Log jopts e w).2 = w) ∧
      (isErr (DevelopmentLogSink.Log dopts e w).1 = true ∧
        (DevelopmentLogSink.Log dopts e w).2 = w)) := by
  refine ⟨fun qs hkv hq => ⟨?_, ?_⟩, fun ps hkv hnd hany => ⟨?_, ?_⟩, fun hfail => ⟨?_, ?_⟩⟩
  · have hberr : isErr (jsonBuildObj jopts e) = true := by
      unfold jsonBuildObj
      rw [hkv]
      exact jsonInsertKVs_err_nonstr qs _ hq
    obtain ⟨m, hm⟩ := (isErr_eq_true_iff _).mp hberr
    unfold JSONLogSink.Log
    rw [hm]
    exact ⟨rfl, rfl⟩
  · have hderr : isErr (devRenderKVs dopts e.KVs) = true := by
      rw [hkv]
      exact devRenderKVs_err_nonstr dopts qs hq
    obtain ⟨m, hm⟩ := (isErr_eq_true_iff _).mp hderr
    unfold DevelopmentLogSink.Log
    rw [hm]
    exact ⟨rfl, rfl⟩
  · obtain ⟨o, ho, hoerr⟩ := jsonInsertKVs_err_marshal ps (jsonFixedObj jopts e) hnd hany
    have hb : jsonBuildObj jopts e = .ok o := by
      unfold jsonBuildObj
      rw [hkv]
      exact ho
    obtain ⟨m, hm⟩ := (isErr_eq_true_iff _).mp (jsonEncodeObj_err o hoerr)
    simp [JSONLogSink.Log, hb, hm, isErr]
  · have hderr : isErr (devRenderKVs dopts e.KVs) = true := by
      rw [hkv]
      exact devRenderKVs_err_marshal dopts ps hany
    obtain ⟨m, hm⟩ := (isErr_eq_true_iff _).mp hderr
    unfold DevelopmentLogSink.Log
    rw [hm]
    exact ⟨rfl, rfl⟩
  · cases hb : jsonBuildObj jopts e with
    | error m => simp [JSONLogSink.Log, hb, isErr]
    | ok obj =>
      cases hc : jsonEncodeObj obj with
      | error m => simp [JSONLogSink.Log, hb, hc, isErr]
      | ok line => simp [JSONLogSink.Log, hb, hc, GoWriter.write, hfail, isErr]
  · cases hd : devRenderKVs dopts e.KVs with
    | error m => simp [DevelopmentLogSink.Log, hd, isErr]
    | ok kvLine => simp [DevelopmentLogSink.Log, hd, GoWriter.write, hfail, isErr]

/-- A record with a non-string kv key (`1="v"`). -/
def c6aEntry : Entry :=
  { Level := 0, Names := [], Timestamp := 0, Message := "m",
    KVs := [.int 1, .str "v"], Error := none }

/-- A record whose value cannot be marshalled (`k=<chan int>`). -/
def c6bEntry : Entry :=
  { Level := 0, Names := [], Timestamp := 0, Message := "m",
    KVs := [.str "k", .chanInt], Error := none }

/-- Witness for C6: the non-string-key record and the unmarshalable-value
record both make both sinks fail with the output untouched, and a failing
writer makes a valid record fail with the output untouched. -/
theorem C6_failure_paths_witness :
    ((isErr (JSONLogSink.Log c5Opts c6aEntry { written := [], fail := false }).1 = true ∧
      (JSONLogSink.Log c5Opts c6aEntry { written := [], fail := false }).2 =
        { written := [], fail := false }) ∧
     (isErr (DevelopmentLogSink.Log c7Opts c6aEntry { written := [], fail := false }).1 = true ∧
      (DevelopmentLogSink.Log c7Opts c6aEntry { written := [], fail := false }).2 =
        { written := [], fail := false })) ∧
    ((isErr (JSONLogSink.Log c5Opts c6bEntry { written := [], fail := false }).1 = true ∧
      (JSONLogSink.Log c5Opts c6bEntry { written := [], fail := false }).2 =
        { written := [], fail := false }) ∧
     (isErr (DevelopmentLogSink.Log c7Opts c6bEntry { written := [], fail := false }).1 = true ∧
      (DevelopmentLogSink.Log c7Opts c6bEntry { written := [], fail := false }).2 =
        { written := [], fail := false })) ∧
    ((isErr (JSONLogSink.Log c5Opts c8Entry { written := [], fail := true }).1 = true ∧
      (JSONLogSink.Log c5Opts c8Entry { written := [], fail := true }).2 =
        { written := [], fail := true }) ∧
     (isErr (DevelopmentLogSink.Log c7Opts c8Entry { written := [], fail := true }).1 = true ∧
      (DevelopmentLogSink.Log c7Opts c8Entry { written := [], fail := true }).2 =
        { written := [], fail := true })) :=
  ⟨(C6_failure_paths c5Opts c7Opts c6aEntry { written := [], fail := false }).1
      [(.int 1, .str "v")] (by decide) (by decide),
   (C6_failure_paths c5Opts c7Opts c6bEntry { written := [], fail := false }).2.1
      [("k", .chanInt)] (by decide) (by decide) (by decide),
   (C6_failure_paths c5Opts c7Opts c8Entry { written := [], fail := true }).2.2 (by decide)⟩
